import Mathlib

set_option maxHeartbeats 1000000

/-
Verification of the bulk image-resolution pipeline of `main.py` / `app.py`
(`is_watermark_source`, `fetch_images`, `bulk_images`).  The two source files
contain the same logic (`app.py` is `main.py` with extended documentation);
line references below are to `main.py`.

Modelling conventions:
* The upstream (Bing) is an oracle `Upstream : String → Nat → UpstreamResp`
  giving, per `(query, count)`, an HTTP status together with the payload's
  `a.iusc` metadata blocks, or a timeout / transport failure.
* `fetch_images` is declared `async` and wrapped with `@cached(cache)` from
  `cachetools` (line 49).  `cachetools.cached` has no coroutine support: its
  wrapper runs `cache[key]` / `func(*args)` / `cache[key] = v` synchronously,
  and for an async `func` the value `v` it stores and returns is the coroutine
  object itself, created but not yet run.  Awaiting a coroutine a second time
  raises `RuntimeError: cannot reuse already awaited coroutine`.  The cache
  value is therefore modelled as a coroutine state (`pending` / `exhausted`),
  not a result list.
* `asyncio.gather` deduplicates identical awaitables (its `arg_to_fut` table),
  so duplicate queries inside one batch share a single task; `gatherGo` below
  memoises on the coroutine's identity, which here is its cache key.
* TTLCache expiry is modelled with an absolute clock `Sys.now` and per-entry
  `expires`; entries are treated as absent once expired.  The capacity bound
  (`maxsize=1000`) and LRU eviction are not modelled: no claim involves more
  than a handful of keys.
* The field `Sys.calls` is ghost instrumentation recording every outbound
  upstream request, in order.
-/

namespace Scrape

/-- Fixed denylist of stock-photo hosts, `WATERMARK_DOMAINS` in `main.py`
lines 41-44.  The Python value is a `set`; only membership is ever used, so a
list is an adequate representation. -/
def WATERMARK_DOMAINS : List String :=
  ["shutterstock.com", "alamy.com", "istockphoto.com", "dreamstime.com",
   "gettyimages.com", "123rf.com", "depositphotos.com", "bigstockphoto.com"]

/-- Python's substring test `d in url`, as containment of the character
sequence of `d` in the character sequence of `url`. -/
def strContains (url d : String) : Bool := decide (d.data <:+: url.data)

/-- Function `is_watermark_source` of `main.py` line 46:
`any(d in url for d in WATERMARK_DOMAINS)`. -/
def is_watermark_source (url : String) : Bool :=
  WATERMARK_DOMAINS.any fun d => strContains url d

/-- Outcome of decoding one `a.iusc` element inside `fetch_images`
(lines 72-80): `json.loads(e.get("m", "{}"))` either raises (`malformed`),
or yields an object whose `"murl"` entry is absent or not a usable string
(`noMurl`), or yields a media URL string (`murl s`). -/
inductive MData where
  | malformed : MData
  | noMurl : MData
  | murl (s : String) : MData
deriving DecidableEq

/-- URL contributed to `out` by one metadata block, mirroring lines 73-80:
a block that fails to decode contributes nothing, and a decoded `murl` is
appended only if `img and not is_watermark_source(img)` — Python truthiness
of `img` rejects the empty string. -/
def blockUrl : MData → Option String
  | .malformed => none
  | .noMurl => none
  | .murl s => if s ≠ "" ∧ is_watermark_source s = false then some s else none

/-- The extraction loop of `fetch_images`, lines 72-83: blocks are processed
in encounter order, accepted URLs are appended, and the loop breaks when
`len(out) >= max_images` — a check made at the end of each iteration, after
the append. -/
def extractLoop : List MData → Nat → List String → List String
  | [], _, out => out
  | e :: rest, maxImages, out =>
    let out' :=
      match blockUrl e with
      | some img => out ++ [img]
      | none => out
    if maxImages ≤ out'.length then out' else extractLoop rest maxImages out'

/-- Extraction of at most `maxImages` accepted URLs from the payload's
metadata blocks (the pure tail of `fetch_images`, lines 68-85). -/
def extract_images (blocks : List MData) (maxImages : Nat) : List String :=
  extractLoop blocks maxImages []

/-- Exceptions escaping an await of `fetch_images`.  `httpExc` is fastapi's
`HTTPException(status, detail)`; `reuseError` is the `RuntimeError` raised by
awaiting an already-awaited coroutine. -/
inductive FetchErr where
  | httpExc (status : Nat) (detail : String)
  | reuseError
deriving DecidableEq

/-- Rendering `str(e)` of a caught exception: starlette's `HTTPException`
prints as `"{status_code}: {detail}"`, and the coroutine-reuse `RuntimeError`
carries the message shown. -/
def strOfErr : FetchErr → String
  | .httpExc status detail => toString status ++ ": " ++ detail
  | .reuseError => "cannot reuse already awaited coroutine"

/-- Behaviour of the upstream for one GET: an HTTP response with a status and
a payload (abstracted to its `a.iusc` metadata blocks), an
`asyncio.TimeoutError`, or any other transport-level exception. -/
inductive UpstreamResp where
  | response (status : Nat) (blocks : List MData)
  | timeout
  | transportError
deriving DecidableEq

/-- Deterministic upstream oracle, indexed by `(query, requested count)`. -/
abbrev Upstream := String → Nat → UpstreamResp

/-- The body of `fetch_images` (lines 52-85) run once against the upstream.
Note that the `raise HTTPException(502, f"Bing returned {status}")` for a
non-200 status (line 59) happens inside the `try` block, so it is itself
caught by `except Exception` (line 64) and replaced by
`HTTPException(502, "Failed to fetch images")`. -/
def fetchBody (env : Upstream) (query : String) (maxImages : Nat) :
    Except FetchErr (List String) :=
  match env query maxImages with
  | .response status blocks =>
    if status ≠ 200 then .error (.httpExc 502 "Failed to fetch images")
    else .ok (extract_images blocks maxImages)
  | .timeout => .error (.httpExc 504 "Request timeout")
  | .transportError => .error (.httpExc 502 "Failed to fetch images")

/-- State of the coroutine object cached by `@cached(cache)`: freshly created
by a call of the wrapped `fetch_images`, or already awaited once. -/
inductive CoroState where
  | pending
  | exhausted
deriving DecidableEq

/-- One TTLCache entry: the cached coroutine and its absolute expiry time
(insertion time plus the TTL). -/
structure CacheEntry where
  coro : CoroState
  expires : Nat
deriving DecidableEq

/-- Cache key of `@cached(cache)`: `hashkey(query, max_images=...)` — both
call sites pass `max_images` the same way, so the key is the pair. -/
abbrev CacheKey := String × Nat

/-- Process-wide mutable state: the TTLCache contents, the ghost log of
upstream requests issued, and the current time in seconds. -/
structure Sys where
  cache : CacheKey → Option CacheEntry
  calls : List CacheKey
  now : Nat

/-- `ttl=3600` of the `TTLCache` on line 30. -/
def TTL : Nat := 3600

/-- Pointwise update of the cache mapping. -/
def setCache (c : CacheKey → Option CacheEntry) (k : CacheKey) (e : Option CacheEntry) :
    CacheKey → Option CacheEntry :=
  fun k' => if k' = k then e else c k'

/-- TTLCache lookup: an entry whose expiry has passed is absent. -/
def cacheGet (sys : Sys) (k : CacheKey) : Option CacheEntry :=
  match sys.cache k with
  | some e => if sys.now < e.expires then some e else none
  | none => none

/-- Process start state: empty cache, no upstream calls issued. -/
def initSys : Sys := { cache := fun _ => none, calls := [], now := 0 }

/-- Cache states in which every live entry is a not-yet-awaited coroutine —
the situation during the spawn phase of a batch served from a fresh cache. -/
def cachePendingOrNone (sys : Sys) : Prop :=
  ∀ k, cacheGet sys k = none ∨
    ∃ ex, cacheGet sys k = some { coro := .pending, expires := ex }

/-- Evaluating the call expression `fetch_images(q, max_images=m)`: the
`cachetools` wrapper runs synchronously — on a live cache hit it returns the
cached coroutine, on a miss it calls the wrapped async function (which only
creates a fresh, not-yet-run coroutine), stores that coroutine in the cache,
and returns it.  The returned coroutine is identified by its cache key. -/
def fetch_images_spawn (sys : Sys) (query : String) (maxImages : Nat) : CacheKey × Sys :=
  let k : CacheKey := (query, maxImages)
  match cacheGet sys k with
  | some _ => (k, sys)
  | none =>
    (k, { sys with
            cache := setCache sys.cache k (some { coro := .pending, expires := sys.now + TTL }) })

/-- Awaiting the coroutine for key `k`: a pending coroutine runs the body of
`fetch_images` (issuing one upstream request) and becomes exhausted whether
the body returns or raises; an exhausted coroutine raises `RuntimeError`
without touching the gate or the upstream.  The `none` case (entry expired
between creation and await) cannot arise within a single request, where the
clock does not advance; it runs the pending coroutine the task still holds. -/
def awaitCoro (env : Upstream) (sys : Sys) (k : CacheKey) :
    Except FetchErr (List String) × Sys :=
  match cacheGet sys k with
  | some entry =>
    match entry.coro with
    | .exhausted => (.error .reuseError, sys)
    | .pending =>
      (fetchBody env k.1 k.2,
       { sys with
           calls := sys.calls ++ [k],
           cache := setCache sys.cache k (some { coro := .exhausted, expires := entry.expires }) })
  | none => (fetchBody env k.1 k.2, { sys with calls := sys.calls ++ [k] })

/-- One full sequential resolution `await fetch_images(q, max_images=m)`:
the wrapper followed by the await of the coroutine it returned. -/
def fetch_images_call (env : Upstream) (sys : Sys) (query : String) (maxImages : Nat) :
    Except FetchErr (List String) × Sys :=
  let p := fetch_images_spawn sys query maxImages
  awaitCoro env p.2 p.1

/-- The list comprehension `tasks = [fetch_images(loc, max_images=5) for loc
in request]` (line 136): every wrapper runs synchronously, in order, before
anything is awaited. -/
def spawnAll : Sys → List String → List CacheKey × Sys
  | sys, [] => ([], sys)
  | sys, q :: rest =>
    let p := fetch_images_spawn sys q 5
    let pr := spawnAll p.2 rest
    (p.1 :: pr.1, pr.2)

/-- First-match association lookup (Python dict access). -/
def alookup {α β : Type} [DecidableEq α] (k : α) : List (α × β) → Option β
  | [] => none
  | (k', v) :: rest => if k = k' then some v else alookup k rest

/-- `await asyncio.gather(*tasks, return_exceptions=True)` (line 137):
each distinct coroutine is awaited exactly once (gather's `arg_to_fut` table
reuses the future of a duplicate awaitable), every exception is captured as a
value, and each task key is mapped to its outcome. -/
def gatherGo (env : Upstream) :
    Sys → List (CacheKey × Except FetchErr (List String)) → List CacheKey →
      List (CacheKey × Except FetchErr (List String)) × Sys
  | sys, acc, [] => (acc, sys)
  | sys, acc, k :: rest =>
    match alookup k acc with
    | some _ => gatherGo env sys acc rest
    | none =>
      let p := awaitCoro env sys k
      gatherGo env p.2 (acc ++ [(k, p.1)]) rest

/-- Outcome of the task for key `k` after the gather; the default is
unreachable because the gather resolves every key it was given. -/
def resultFor (acc : List (CacheKey × Except FetchErr (List String))) (k : CacheKey) :
    Except FetchErr (List String) :=
  (alookup k acc).getD (.error .reuseError)

/-- The per-query output value of lines 140-145: an exceptional result maps
to the empty list, a normal result to itself. -/
def valOfRes : Except FetchErr (List String) → List String
  | .ok l => l
  | .error _ => []

/-- Python dict assignment `output[loc] = v`: replaces the value of an
existing key in place, otherwise appends the new binding. -/
def dictInsert (out : List (String × List String)) (q : String) (v : List String) :
    List (String × List String) :=
  match alookup q out with
  | some _ => out.map fun p => if p.1 = q then (q, v) else p
  | none => out ++ [(q, v)]

/-- Building the response dict of lines 139-145 by inserting every
`(loc, result)` pair in order. -/
def buildOutput : List (String × Except FetchErr (List String)) →
    List (String × List String) → List (String × List String)
  | [], out => out
  | (q, r) :: rest, out => buildOutput rest (dictInsert out q (valOfRes r))

/-- A JSON array element as the handler sees it: a string, or anything else
(`isinstance(loc, str)` is the only distinction drawn, line 128). -/
inductive PyVal where
  | str (s : String)
  | nonStr
deriving DecidableEq

/-- The check `isinstance(loc, str)`. -/
def PyVal.isStr : PyVal → Bool
  | .str _ => true
  | .nonStr => false

/-- Selection of the string payload of an element. -/
def PyVal.asStr : PyVal → Option String
  | .str s => some s
  | .nonStr => none

/-- The request as dispatched by `bulk_images` (lines 124-168): a JSON array,
a `LocationRequest`-style object carrying a `location` string (its optional
`params` are never read), or anything else. -/
inductive ReqVal where
  | list (items : List PyVal)
  | locReq (location : String)
  | other
deriving DecidableEq

/-- Response of the endpoint: a raised `HTTPException` (status, detail), the
Format-1 mapping from location to URL list, or the Format-2 object
`{"images": ..., "error"?: ...}`. -/
inductive Response where
  | badRequest (status : Nat) (detail : String)
  | mapResult (out : List (String × List String))
  | singleResult (images : List String) (error : Option String)
deriving DecidableEq

/-- The endpoint `bulk_images` of `main.py` lines 112-174.  List shape:
validation (empty, non-string element, length over 20) then parallel
resolution with `max_images=5` and per-location degradation to `[]`.
Object shape: empty-location validation, then a single resolution whose
exception is caught and reported in the body.  Anything else: 400. -/
def bulk_images (env : Upstream) (sys : Sys) (req : ReqVal) : Response × Sys :=
  match req with
  | .list items =>
    if items = [] then (.badRequest 400 "Empty location list provided", sys)
    else if items.all PyVal.isStr = false then
      (.badRequest 400 "When sending an array, all items must be strings.", sys)
    else if 20 < items.length then
      (.badRequest 400 "Maximum 20 locations allowed per request", sys)
    else
      let locs := items.filterMap PyVal.asStr
      let sp := spawnAll sys locs
      let g := gatherGo env sp.2 [] sp.1
      let pairs := locs.zip (sp.1.map fun k => resultFor g.1 k)
      (.mapResult (buildOutput pairs []), g.2)
  | .locReq location =>
    if location = "" then (.badRequest 400 "Location cannot be empty", sys)
    else
      let p := fetch_images_call env sys location 5
      match p.1 with
      | .ok images => (.singleResult images none, p.2)
      | .error e => (.singleResult [] (some (strOfErr e)), p.2)
  | .other =>
    (.badRequest 400
      "Invalid request format. Expected JSON array of strings or object with location property.",
     sys)

/-- The fully degraded value a query resolves to at the endpoint: the body's
result list on success, the empty list on any failure. -/
def resolveValue (env : Upstream) (q : String) : List String :=
  valOfRes (fetchBody env q 5)

/-- Program counter of one in-flight resolution coroutine, following the
phases of `fetch_images` (lines 50-85): created but not yet resumed (all
wrapper-side cache work precedes this point), suspended at `async with SEM`
(line 52), inside the with-block awaiting the upstream GET (lines 53-66),
parsing the payload after the with-block exited (lines 68-85), finished. -/
inductive TaskPc where
  | ready
  | waitingGate
  | fetching
  | parsing
  | done
deriving DecidableEq

/-- One resolution task together with whether it currently holds a slot of
the semaphore. -/
structure GateTask where
  pc : TaskPc
  holding : Bool
deriving DecidableEq

/-- Interleaving state: available semaphore permits and the task pool. -/
structure GateSys where
  sem : Nat
  tasks : List GateTask
deriving DecidableEq

/-- `asyncio.Semaphore(50)` of line 31. -/
def SEM_LIMIT : Nat := 50

/-- Start state for `n` concurrently scheduled resolutions. -/
def initGate (n : Nat) : GateSys :=
  { sem := SEM_LIMIT, tasks := List.replicate n { pc := .ready, holding := false } }

/-- Small-step interleaving semantics of the gate discipline in
`fetch_images`: a slot is taken on entering `async with SEM` and given back
when the with-block exits — at the moment the raw payload has been obtained
(`fetchOk`), or on the exception path (`fetchFail`); parsing happens entirely
outside the block and never touches the semaphore. -/
inductive GateStep : GateSys → GateSys → Prop where
  | start (s : GateSys) (i : Nat) (t : GateTask)
      (hi : s.tasks.get? i = some t) (hpc : t.pc = .ready) :
      GateStep s { s with tasks := s.tasks.set i { pc := .waitingGate, holding := t.holding } }
  | acquire (s : GateSys) (i : Nat) (t : GateTask)
      (hi : s.tasks.get? i = some t) (hpc : t.pc = .waitingGate) (hsem : 0 < s.sem) :
      GateStep s { sem := s.sem - 1, tasks := s.tasks.set i { pc := .fetching, holding := true } }
  | fetchOk (s : GateSys) (i : Nat) (t : GateTask)
      (hi : s.tasks.get? i = some t) (hpc : t.pc = .fetching) :
      GateStep s { sem := s.sem + 1, tasks := s.tasks.set i { pc := .parsing, holding := false } }
  | fetchFail (s : GateSys) (i : Nat) (t : GateTask)
      (hi : s.tasks.get? i = some t) (hpc : t.pc = .fetching) :
      GateStep s { sem := s.sem + 1, tasks := s.tasks.set i { pc := .done, holding := false } }
  | parseDone (s : GateSys) (i : Nat) (t : GateTask)
      (hi : s.tasks.get? i = some t) (hpc : t.pc = .parsing) :
      GateStep s { s with tasks := s.tasks.set i { pc := .done, holding := t.holding } }

/-- States reachable from the start state with `n` tasks. -/
def GateReach (n : Nat) (s : GateSys) : Prop :=
  Relation.ReflTransGen GateStep (initGate n) s

/-- Number of tasks currently holding a semaphore slot. -/
def holdersCount (ts : List GateTask) : Nat :=
  ts.countP fun t => t.holding

/-- Gate invariant: permits are conserved, and a slot is held exactly during
the upstream fetch. -/
def gateInv (s : GateSys) : Prop :=
  holdersCount s.tasks + s.sem = SEM_LIMIT ∧
  ∀ t ∈ s.tasks, t.holding = true ↔ t.pc = .fetching

/-- Upstream that always answers 200 with two parseable blocks. -/
def envTwoGood : Upstream := fun _ _ => .response 200 [.murl "a.jpg", .murl "b.jpg"]

/-- Upstream that always times out. -/
def envTimeoutAll : Upstream := fun _ _ => .timeout

/-- Upstream where the query "b" times out and every other query succeeds
with two URLs. -/
def envMixed : Upstream := fun q _ =>
  if q = "b" then .timeout else .response 200 [.murl "u1", .murl "u2"]

/-- System state after a first successful resolution of ("Paris", 5). -/
def c1Sys1 : Sys := (fetch_images_call envTwoGood initSys "Paris" 5).2

/-- The same state ten seconds later — well inside the 3600-second TTL. -/
def c1Sys1Later : Sys := { c1Sys1 with now := c1Sys1.now + 10 }

deriving instance DecidableEq for Except

theorem extractLoop_eq_take (m : Nat) :
    ∀ (blocks : List MData) (out : List String), out.length < m →
      extractLoop blocks m out = out ++ (blocks.filterMap blockUrl).take (m - out.length) := by
  intro blocks
  induction blocks with
  | nil => intro out h; simp [extractLoop]
  | cons e rest ih =>
    intro out h
    cases hb : blockUrl e with
    | none =>
      have hnot : ¬ m ≤ out.length := Nat.not_le.mpr h
      simp only [extractLoop, hb, if_neg hnot]
      rw [ih out h, List.filterMap_cons_none hb]
    | some img =>
      have hsub : m - out.length = (m - (out.length + 1)) + 1 := by omega
      rw [List.filterMap_cons_some hb]
      simp only [extractLoop, hb]
      by_cases hm : m ≤ (out ++ [img]).length
      · have hlen : (out ++ [img]).length = out.length + 1 := by simp
        have hz : m - (out.length + 1) = 0 := by omega
        rw [if_pos hm, hsub, hz, List.take_succ_cons, List.take_zero]
      · rw [if_neg hm]
        have hlt : (out ++ [img]).length < m := by
          simp only [List.length_append, List.length_singleton] at hm ⊢; omega
        rw [ih (out ++ [img]) hlt, hsub, List.take_succ_cons]
        simp only [List.length_append, List.length_singleton, List.append_assoc,
          List.cons_append, List.nil_append]

theorem extract_images_eq_take (blocks : List MData) (m : Nat) (h : 1 ≤ m) :
    extract_images blocks m = (blocks.filterMap blockUrl).take m := by
  have := extractLoop_eq_take m blocks [] (by simpa using h)
  simpa [extract_images] using this

theorem mem_extractLoop (u : String) :
    ∀ (blocks : List MData) (m : Nat) (out : List String),
      u ∈ extractLoop blocks m out → u ∈ out ∨ ∃ b ∈ blocks, blockUrl b = some u := by
  intro blocks
  induction blocks with
  | nil => intro m out h; exact Or.inl (by simpa [extractLoop] using h)
  | cons e rest ih =>
    intro m out h
    cases hb : blockUrl e with
    | none =>
      simp only [extractLoop, hb] at h
      split at h
      · exact Or.inl h
      · rcases ih m out h with h' | ⟨b, hbm, hbu⟩
        · exact Or.inl h'
        · exact Or.inr ⟨b, List.mem_cons_of_mem _ hbm, hbu⟩
    | some img =>
      have hsplit : u ∈ out ++ [img] → u ∈ out ∨ ∃ b ∈ e :: rest, blockUrl b = some u := by
        intro hu
        rcases List.mem_append.mp hu with h' | h'
        · exact Or.inl h'
        · have : u = img := by simpa using h'
          exact Or.inr ⟨e, List.mem_cons_self _ _, by rw [hb, this]⟩
      simp only [extractLoop, hb] at h
      split at h
      · exact hsplit h
      · rcases ih m (out ++ [img]) h with h' | ⟨b, hbm, hbu⟩
        · exact hsplit h'
        · exact Or.inr ⟨b, List.mem_cons_of_mem _ hbm, hbu⟩

theorem blockUrl_some (b : MData) (u : String) (h : blockUrl b = some u) :
    u ≠ "" ∧ is_watermark_source u = false := by
  cases b with
  | malformed => simp [blockUrl] at h
  | noMurl => simp [blockUrl] at h
  | murl s =>
    simp only [blockUrl] at h
    split at h
    · rename_i hc
      cases h
      exact hc
    · cases h

theorem is_watermark_source_iff (url : String) :
    is_watermark_source url = true ↔ ∃ d ∈ WATERMARK_DOMAINS, d.data <:+: url.data := by
  simp [is_watermark_source, strContains, List.any_eq_true]

/-- C5 counterexample: the claim quantifies over every requested count, but
at `max_images = 0` the loop appends before testing the bound, so a payload
with one acceptable block yields one URL — more than `max_images`. -/
theorem c5_zero_cap_cex :
    ¬ ((extract_images [MData.murl "a.jpg"] 0).length ≤ 0) := by decide

/-- C5 (amended to `max_images ≥ 1`): extraction equals the `max_images`
prefix of the accepted URLs in encounter order — hence it returns at most
`max_images` URLs, skips undecodable blocks silently, stops as soon as
`max_images` accepted URLs have been collected even if more parseable blocks
remain, never fails, and a payload with no parseable blocks yields `[]`. -/
theorem c5_extract_cap (blocks : List MData) (m : Nat) (h : 1 ≤ m) :
    extract_images blocks m = (blocks.filterMap blockUrl).take m ∧
    (extract_images blocks m).length ≤ m ∧
    (∀ p rest, blocks = p ++ rest → m ≤ (p.filterMap blockUrl).length →
      extract_images blocks m = extract_images p m) ∧
    ((∀ b ∈ blocks, blockUrl b = none) → extract_images blocks m = []) := by
  refine ⟨extract_images_eq_take blocks m h, ?_, ?_, ?_⟩
  · rw [extract_images_eq_take blocks m h]
    simp [List.length_take]
  · intro p rest hsplit hlen
    rw [extract_images_eq_take blocks m h, extract_images_eq_take p m h, hsplit,
      List.filterMap_append, List.take_append_of_le_length hlen]
  · intro hnone
    rw [extract_images_eq_take blocks m h, List.filterMap_eq_nil_iff.mpr hnone, List.take_nil]

/-- C5 witness at a concrete payload and count. -/
theorem c5_extract_cap_witness :
    extract_images [MData.murl "a.jpg", MData.murl "b.jpg", MData.malformed] 1 =
      (([MData.murl "a.jpg", MData.murl "b.jpg",
          MData.malformed].filterMap blockUrl).take 1) ∧
    (extract_images [MData.murl "a.jpg", MData.murl "b.jpg", MData.malformed] 1).length ≤ 1 ∧
    (∀ p rest, [MData.murl "a.jpg", MData.murl "b.jpg", MData.malformed] = p ++ rest →
      1 ≤ (p.filterMap blockUrl).length →
      extract_images [MData.murl "a.jpg", MData.murl "b.jpg", MData.malformed] 1 =
        extract_images p 1) ∧
    ((∀ b ∈ [MData.murl "a.jpg", MData.murl "b.jpg", MData.malformed], blockUrl b = none) →
      extract_images [MData.murl "a.jpg", MData.murl "b.jpg", MData.malformed] 1 = []) :=
  c5_extract_cap [MData.murl "a.jpg", MData.murl "b.jpg", MData.malformed] 1 (by decide)

/-- C6: `is_watermark_source url` is true exactly when some denylisted domain
occurs as a substring of `url`; consequently no extracted result contains a
URL with a denylisted substring, and a nonempty candidate URL without a
denylisted substring passes the filter. -/
theorem c6_watermark_filter (url : String) :
    (is_watermark_source url = true ↔ ∃ d ∈ WATERMARK_DOMAINS, d.data <:+: url.data) ∧
    (∀ blocks m u, u ∈ extract_images blocks m →
      ¬ ∃ d ∈ WATERMARK_DOMAINS, d.data <:+: u.data) ∧
    (∀ u, u ≠ "" → (¬ ∃ d ∈ WATERMARK_DOMAINS, d.data <:+: u.data) →
      blockUrl (MData.murl u) = some u) := by
  refine ⟨is_watermark_source_iff url, ?_, ?_⟩
  · intro blocks m u hu
    rcases mem_extractLoop u blocks m [] hu with h | ⟨b, _, hbu⟩
    · cases h
    · have := (blockUrl_some b u hbu).2
      rw [← is_watermark_source_iff]
      simp [this]
  · intro u hne hnw
    have hw : is_watermark_source u = false := by
      rcases hb : is_watermark_source u with _ | _
      · rfl
      · exact absurd ((is_watermark_source_iff u).mp hb) hnw
    simp [blockUrl, hne, hw]

/-- C6 witness: a URL embedding a denylisted domain is classified as a
watermark source; a clean URL survives extraction and the filter. -/
theorem c6_watermark_filter_witness :
    (¬ ∃ d ∈ WATERMARK_DOMAINS, d.data <:+: ("clean.jpg" : String).data) ∧
    blockUrl (MData.murl "ok.png") = some "ok.png" :=
  ⟨(c6_watermark_filter "x").2.1 [MData.murl "clean.jpg"] 5 "clean.jpg" (by decide),
   (c6_watermark_filter "x").2.2 "ok.png" (by decide) (by decide)⟩

theorem spawn_fst (sys : Sys) (q : String) (m : Nat) :
    (fetch_images_spawn sys q m).1 = (q, m) := by
  cases hc : cacheGet sys (q, m) <;> simp [fetch_images_spawn, hc]

theorem spawn_cacheGet (sys : Sys) (q : String) (m : Nat) (k' : CacheKey) :
    cacheGet (fetch_images_spawn sys q m).2 k' =
      if k' = (q, m) ∧ cacheGet sys (q, m) = none
      then some { coro := .pending, expires := sys.now + TTL }
      else cacheGet sys k' := by
  cases hc : cacheGet sys (q, m) with
  | some e => simp [fetch_images_spawn, hc]
  | none =>
    simp only [fetch_images_spawn, hc, and_true]
    by_cases hk : k' = (q, m)
    · subst hk
      have hlt : sys.now < sys.now + TTL := by simp [TTL]
      simp [cacheGet, setCache, hlt]
    · simp [cacheGet, setCache, hk, hc]

theorem spawnAll_fst : ∀ (locs : List String) (sys : Sys),
    (spawnAll sys locs).1 = locs.map fun q => (q, 5) := by
  intro locs
  induction locs with
  | nil => intro sys; rfl
  | cons q rest ih => intro sys; simp [spawnAll, spawn_fst, ih]

theorem spawnAll_pending : ∀ (locs : List String) (sys : Sys),
    cachePendingOrNone sys →
    (∀ q ∈ locs, ∃ ex,
        cacheGet (spawnAll sys locs).2 (q, 5) = some { coro := .pending, expires := ex }) ∧
    cachePendingOrNone (spawnAll sys locs).2 ∧
    (∀ k ex, cacheGet sys k = some { coro := .pending, expires := ex } →
      cacheGet (spawnAll sys locs).2 k = some { coro := .pending, expires := ex }) := by
  intro locs
  induction locs with
  | nil =>
    intro sys hpre
    exact ⟨by simp, hpre, fun k ex h => h⟩
  | cons q rest ih =>
    intro sys hpre
    have hmono1 : ∀ k ex, cacheGet sys k = some { coro := .pending, expires := ex } →
        cacheGet (fetch_images_spawn sys q 5).2 k = some { coro := .pending, expires := ex } := by
      intro k ex h
      rw [spawn_cacheGet]
      split
      · rename_i hcond
        rw [hcond.1] at h
        rw [h] at hcond
        cases hcond.2
      · exact h
    have hpre1 : cachePendingOrNone (fetch_images_spawn sys q 5).2 := by
      intro k
      rw [spawn_cacheGet]
      split
      · exact Or.inr ⟨sys.now + TTL, rfl⟩
      · exact hpre k
    have hq1 : ∃ ex, cacheGet (fetch_images_spawn sys q 5).2 (q, 5)
        = some { coro := .pending, expires := ex } := by
      rcases hpre (q, 5) with hn | ⟨ex, hp⟩
      · exact ⟨sys.now + TTL, by rw [spawn_cacheGet]; simp [hn]⟩
      · exact ⟨ex, hmono1 (q, 5) ex hp⟩
    obtain ⟨hrest, hpre2, hmono2⟩ := ih (fetch_images_spawn sys q 5).2 hpre1
    have hsnd : (spawnAll sys (q :: rest)).2 = (spawnAll (fetch_images_spawn sys q 5).2 rest).2 :=
      rfl
    refine ⟨?_, ?_, ?_⟩
    · intro q' hq'
      rcases List.mem_cons.mp hq' with rfl | hmem
      · obtain ⟨ex, hex⟩ := hq1
        exact ⟨ex, by rw [hsnd]; exact hmono2 (q', 5) ex hex⟩
      · obtain ⟨ex, hex⟩ := hrest q' hmem
        exact ⟨ex, by rw [hsnd]; exact hex⟩
    · rw [hsnd]; exact hpre2
    · intro k ex h
      rw [hsnd]
      exact hmono2 k ex (hmono1 k ex h)

theorem awaitCoro_pending (env : Upstream) (sys : Sys) (k : CacheKey) (ex : Nat)
    (h : cacheGet sys k = some { coro := .pending, expires := ex }) :
    awaitCoro env sys k =
      (fetchBody env k.1 k.2,
       { sys with
           calls := sys.calls ++ [k],
           cache := setCache sys.cache k (some { coro := .exhausted, expires := ex }) }) := by
  simp [awaitCoro, h]

theorem alookup_append_single {α β : Type} [DecidableEq α] (k k0 : α) (v : β) :
    ∀ l : List (α × β), alookup k (l ++ [(k0, v)]) =
      match alookup k l with
      | some w => some w
      | none => if k = k0 then some v else none := by
  intro l
  induction l with
  | nil => simp [alookup]
  | cons p rest ih =>
    obtain ⟨k', w⟩ := p
    by_cases hk : k = k'
    · simp [alookup, hk]
    · simp only [List.cons_append, alookup, if_neg hk]
      exact ih

theorem gatherGo_resolves (env : Upstream) :
    ∀ (ks : List CacheKey) (sys : Sys)
      (acc : List (CacheKey × Except FetchErr (List String))),
      (∀ k r, alookup k acc = some r → r = fetchBody env k.1 k.2) →
      (∀ k, k ∈ ks → (alookup k acc).isSome = true ∨
        ∃ ex, cacheGet sys k = some { coro := .pending, expires := ex }) →
      (∀ k r, alookup k (gatherGo env sys acc ks).1 = some r → r = fetchBody env k.1 k.2) ∧
      (∀ k, k ∈ ks → (alookup k (gatherGo env sys acc ks).1).isSome = true) ∧
      (∀ k, (alookup k acc).isSome = true →
        (alookup k (gatherGo env sys acc ks).1).isSome = true) := by
  intro ks
  induction ks with
  | nil =>
    intro sys acc hacc hks
    exact ⟨fun k r h => hacc k r h, by simp, fun k h => h⟩
  | cons k0 rest ih =>
    intro sys acc hacc hks
    cases hl : alookup k0 acc with
    | some r0 =>
      have hstep : gatherGo env sys acc (k0 :: rest) = gatherGo env sys acc rest := by
        simp [gatherGo, hl]
      rw [hstep]
      obtain ⟨g1, g2, g3⟩ := ih sys acc hacc fun k hk => hks k (List.mem_cons_of_mem _ hk)
      refine ⟨g1, ?_, g3⟩
      intro k hk
      rcases List.mem_cons.mp hk with rfl | hmem
      · exact g3 k (by simp [hl])
      · exact g2 k hmem
    | none =>
      rcases hks k0 (List.mem_cons_self _ _) with hs | ⟨ex, hpen⟩
      · rw [hl] at hs; cases hs
      · have hstep : gatherGo env sys acc (k0 :: rest) =
            gatherGo env (awaitCoro env sys k0).2
              (acc ++ [(k0, (awaitCoro env sys k0).1)]) rest := by
          simp [gatherGo, hl]
        rw [hstep, awaitCoro_pending env sys k0 ex hpen]
        have hacc1 : ∀ k r,
            alookup k (acc ++ [(k0, fetchBody env k0.1 k0.2)]) = some r →
            r = fetchBody env k.1 k.2 := by
          intro k r h
          rw [alookup_append_single] at h
          cases ha : alookup k acc with
          | some w => rw [ha] at h; exact hacc k r (ha.trans h)
          | none =>
            rw [ha] at h
            by_cases hk : k = k0
            · subst hk
              simp only [if_pos rfl] at h
              cases h
              rfl
            · rw [if_neg hk] at h; cases h
        have hks1 : ∀ k, k ∈ rest →
            (alookup k (acc ++ [(k0, fetchBody env k0.1 k0.2)])).isSome = true ∨
            ∃ ex', cacheGet
              { sys with
                  calls := sys.calls ++ [k0],
                  cache := setCache sys.cache k0
                    (some { coro := .exhausted, expires := ex }) } k
              = some { coro := .pending, expires := ex' } := by
          intro k hk
          rcases hks k (List.mem_cons_of_mem _ hk) with hs | ⟨ex', hp⟩
          · left
            rw [alookup_append_single]
            cases ha : alookup k acc with
            | some w => simp
            | none => rw [ha] at hs; cases hs
          · by_cases hkk : k = k0
            · subst hkk
              left
              rw [alookup_append_single, hl]
              simp
            · right
              refine ⟨ex', ?_⟩
              rw [← hp]
              simp [cacheGet, setCache, hkk]
        obtain ⟨g1, g2, g3⟩ := ih _ _ hacc1 hks1
        refine ⟨g1, ?_, ?_⟩
        · intro k hk
          rcases List.mem_cons.mp hk with rfl | hmem
          · apply g3
            rw [alookup_append_single, hl]
            simp
          · exact g2 k hmem
        · intro k hs
          apply g3
          rw [alookup_append_single]
          cases ha : alookup k acc with
          | some w => simp
          | none => rw [ha] at hs; cases hs

theorem alookup_map_replace (q0 : String) (v : List String) (q : String) :
    ∀ out : List (String × List String),
      alookup q (out.map fun p => if p.1 = q0 then (q0, v) else p) =
        if q = q0 then (if (alookup q0 out).isSome then some v else none)
        else alookup q out := by
  intro out
  induction out with
  | nil => simp [alookup]
  | cons p rest ih =>
    obtain ⟨k, w⟩ := p
    rw [List.map_cons]
    by_cases hk : k = q0
    · subst hk
      have hhead : (if ((k, w) : String × List String).1 = k then (k, v) else (k, w)) = (k, v) :=
        if_pos rfl
      rw [hhead]
      by_cases hq : q = k
      · subst hq
        simp [alookup]
      · simp only [alookup, if_neg hq, ih]
    · have hhead : (if ((k, w) : String × List String).1 = q0 then (q0, v) else (k, w)) = (k, w) :=
        if_neg hk
      rw [hhead]
      by_cases hq : q = k
      · subst hq
        have hq0 : ¬ q = q0 := hk
        simp [alookup, hq0]
      · have hq0k : ¬ q0 = k := fun h => hk h.symm
        simp only [alookup, if_neg hq, ih]
        by_cases hqq : q = q0
        · subst hqq
          simp [alookup, hq0k]
        · simp [hqq]

theorem alookup_dictInsert (out : List (String × List String)) (q0 : String)
    (v : List String) (q : String) :
    alookup q (dictInsert out q0 v) = if q = q0 then some v else alookup q out := by
  unfold dictInsert
  cases hl : alookup q0 out with
  | some w =>
    rw [alookup_map_replace]
    simp [hl]
  | none =>
    rw [alookup_append_single]
    cases hq : alookup q out with
    | some w =>
      by_cases hqq : q = q0
      · subst hqq; rw [hq] at hl; cases hl
      · simp [hqq]
    | none => simp

theorem alookup_eq_none_iff {α β : Type} [DecidableEq α] (k : α) :
    ∀ l : List (α × β), alookup k l = none ↔ k ∉ l.map Prod.fst := by
  intro l
  induction l with
  | nil => simp [alookup]
  | cons p rest ih =>
    obtain ⟨k', v⟩ := p
    by_cases hk : k = k' <;> simp [alookup, hk, ih]

theorem keys_dictInsert (out : List (String × List String)) (q0 : String) (v : List String) :
    (dictInsert out q0 v).map Prod.fst =
      if (alookup q0 out).isSome then out.map Prod.fst
      else out.map Prod.fst ++ [q0] := by
  unfold dictInsert
  cases hl : alookup q0 out with
  | some w =>
    simp only [Option.isSome_some, if_true, List.map_map]
    apply List.map_congr_left
    intro p _
    by_cases hp : p.1 = q0 <;> simp [Function.comp, hp]
  | none => simp

theorem keys_nodup_dictInsert (out : List (String × List String)) (q0 : String)
    (v : List String) (h : (out.map Prod.fst).Nodup) :
    ((dictInsert out q0 v).map Prod.fst).Nodup := by
  rw [keys_dictInsert]
  cases hl : alookup q0 out with
  | some w => simpa using h
  | none =>
    simp only [Option.isSome_none, Bool.false_eq_true, if_false]
    rw [List.nodup_append]
    refine ⟨h, List.nodup_singleton _, ?_⟩
    intro a ha hmem
    rw [List.mem_singleton] at hmem
    subst hmem
    exact (alookup_eq_none_iff a out).mp hl ha

theorem keys_mem_dictInsert (out : List (String × List String)) (q0 : String)
    (v : List String) (q : String) :
    q ∈ (dictInsert out q0 v).map Prod.fst ↔ q ∈ out.map Prod.fst ∨ q = q0 := by
  rw [keys_dictInsert]
  cases hl : alookup q0 out with
  | some w =>
    have hq0 : q0 ∈ out.map Prod.fst := by
      by_contra hq0
      rw [(alookup_eq_none_iff q0 out).mpr hq0] at hl
      cases hl
    simp only [Option.isSome_some, if_true]
    constructor
    · exact Or.inl
    · rintro (h | rfl)
      · exact h
      · exact hq0
  | none => simp [List.mem_append]

theorem buildOutput_lookup (F : String → Except FetchErr (List String)) (q : String) :
    ∀ (locs : List String) (out : List (String × List String)),
      alookup q (buildOutput (locs.map fun q' => (q', F q')) out) =
        if q ∈ locs then some (valOfRes (F q)) else alookup q out := by
  intro locs
  induction locs with
  | nil => intro out; simp [buildOutput]
  | cons q0 rest ih =>
    intro out
    rw [List.map_cons,
      show buildOutput ((q0, F q0) :: rest.map fun q' => (q', F q')) out =
        buildOutput (rest.map fun q' => (q', F q')) (dictInsert out q0 (valOfRes (F q0)))
        from rfl,
      ih]
    by_cases hq : q ∈ rest
    · simp [hq, List.mem_cons]
    · rw [alookup_dictInsert]
      by_cases hq0 : q = q0
      · subst hq0; simp [hq]
      · simp [hq, hq0, List.mem_cons]

theorem buildOutput_keys_nodup :
    ∀ (pairs : List (String × Except FetchErr (List String)))
      (out : List (String × List String)), (out.map Prod.fst).Nodup →
      ((buildOutput pairs out).map Prod.fst).Nodup := by
  intro pairs
  induction pairs with
  | nil => intro out h; exact h
  | cons p rest ih =>
    intro out h
    obtain ⟨q, r⟩ := p
    exact ih _ (keys_nodup_dictInsert out q (valOfRes r) h)

theorem buildOutput_keys_mem :
    ∀ (pairs : List (String × Except FetchErr (List String)))
      (out : List (String × List String)) (q : String),
      q ∈ (buildOutput pairs out).map Prod.fst ↔
        q ∈ pairs.map Prod.fst ∨ q ∈ out.map Prod.fst := by
  intro pairs
  induction pairs with
  | nil => intro out q; simp [buildOutput]
  | cons p rest ih =>
    intro out q
    obtain ⟨q0, r⟩ := p
    rw [show buildOutput ((q0, r) :: rest) out =
      buildOutput rest (dictInsert out q0 (valOfRes r)) from rfl, ih, keys_mem_dictInsert]
    simp only [List.map_cons, List.mem_cons]
    tauto

theorem filterMap_asStr_map_str : ∀ locs : List String,
    (locs.map PyVal.str).filterMap PyVal.asStr = locs := by
  intro locs
  induction locs with
  | nil => rfl
  | cons q rest ih =>
    rw [List.map_cons,
      List.filterMap_cons_some (show PyVal.asStr (PyVal.str q) = some q from rfl), ih]

theorem all_isStr_map_str (locs : List String) :
    (locs.map PyVal.str).all PyVal.isStr = true := by
  rw [List.all_eq_true]
  intro x hx
  rcases List.mem_map.mp hx with ⟨q, _, rfl⟩
  rfl

theorem zip_self_map {α β : Type} (f : α → β) :
    ∀ l : List α, l.zip (l.map f) = l.map fun a => (a, f a) := by
  intro l
  induction l with
  | nil => rfl
  | cons a rest ih => simp [ih]

theorem bulk_list_run (env : Upstream) (locs : List String)
    (h1 : locs ≠ []) (h2 : locs.length ≤ 20) :
    ∃ sys',
      bulk_images env initSys (.list (locs.map PyVal.str)) =
        (.mapResult (buildOutput (locs.map fun q => (q, fetchBody env q 5)) []), sys') := by
  have hne : locs.map PyVal.str ≠ [] := by
    intro h
    exact h1 (List.map_eq_nil_iff.mp h)
  have hcond2 : ¬ ((locs.map PyVal.str).all PyVal.isStr = false) := by
    simp [all_isStr_map_str locs]
  have hlen : ¬ 20 < (locs.map PyVal.str).length := by
    rw [List.length_map]; omega
  have hmain : bulk_images env initSys (.list (locs.map PyVal.str)) =
      (.mapResult (buildOutput (locs.map fun q => (q, fetchBody env q 5)) []),
       (gatherGo env (spawnAll initSys locs).2 [] (locs.map fun q => (q, 5))).2) := by
    simp only [bulk_images, if_neg hne, if_neg hcond2, if_neg hlen, filterMap_asStr_map_str]
    have hfst : (spawnAll initSys locs).1 = locs.map fun q => (q, 5) := spawnAll_fst locs initSys
    rw [hfst]
    have hpre : cachePendingOrNone initSys := fun k => Or.inl rfl
    obtain ⟨hpend, _, _⟩ := spawnAll_pending locs initSys hpre
    have hks : ∀ k, k ∈ locs.map (fun q => (q, 5)) →
        (alookup (β := Except FetchErr (List String)) k []).isSome = true ∨
        ∃ ex, cacheGet (spawnAll initSys locs).2 k
          = some { coro := .pending, expires := ex } := by
      intro k hk
      rcases List.mem_map.mp hk with ⟨q, hq, rfl⟩
      exact Or.inr (hpend q hq)
    obtain ⟨g1, g2, _⟩ := gatherGo_resolves env (locs.map fun q => (q, 5))
      (spawnAll initSys locs).2 [] (fun k r h => by cases h) hks
    have hres : ∀ q ∈ locs,
        resultFor (gatherGo env (spawnAll initSys locs).2 [] (locs.map fun q => (q, 5))).1 (q, 5)
          = fetchBody env q 5 := by
      intro q hq
      have hk : (q, 5) ∈ locs.map fun q => (q, 5) := List.mem_map_of_mem _ hq
      obtain ⟨r, hr⟩ := Option.isSome_iff_exists.mp (g2 (q, 5) hk)
      have := g1 (q, 5) r hr
      rw [resultFor, hr, Option.getD_some, this]
    rw [List.map_map,
      List.map_congr_left (fun q hq => by
        simp only [Function.comp_apply]
        exact hres q hq),
      zip_self_map]
  exact ⟨_, hmain⟩

/-- C2: for a valid batch from the initial state, the response is a mapping
whose key set is exactly the set of input queries with no duplicate keys,
and each key maps to the value its own resolution produced. -/
theorem c2_bulk_mapping (env : Upstream) (locs : List String)
    (h1 : locs ≠ []) (h2 : locs.length ≤ 20) :
    ∃ out sys',
      bulk_images env initSys (.list (locs.map PyVal.str)) = (.mapResult out, sys') ∧
      (out.map Prod.fst).Nodup ∧
      (∀ q, q ∈ out.map Prod.fst ↔ q ∈ locs) ∧
      ∀ q ∈ locs, alookup q out = some (resolveValue env q) := by
  obtain ⟨sys', hrun⟩ := bulk_list_run env locs h1 h2
  refine ⟨_, sys', hrun, ?_, ?_, ?_⟩
  · exact buildOutput_keys_nodup _ [] (by simp)
  · intro q
    rw [buildOutput_keys_mem]
    simp
  · intro q hq
    rw [buildOutput_lookup, if_pos hq]
    rfl

/-- C2 witness at a concrete environment and batch with a repeated query. -/
theorem c2_bulk_mapping_witness :
    ∃ out sys',
      bulk_images envMixed initSys (.list (["a", "b", "a"].map PyVal.str))
        = (.mapResult out, sys') ∧
      (out.map Prod.fst).Nodup ∧
      (∀ q, q ∈ out.map Prod.fst ↔ q ∈ ["a", "b", "a"]) ∧
      ∀ q ∈ ["a", "b", "a"], alookup q out = some (resolveValue envMixed q) :=
  c2_bulk_mapping envMixed ["a", "b", "a"] (by decide) (by decide)

/-- C3: in a valid batch from the initial state, a query whose resolution
fails maps to the empty list, a query whose resolution succeeds maps to its
own result, and every input query has an output entry — the batch as a whole
never fails. -/
theorem c3_per_query_degrade (env : Upstream) (locs : List String)
    (h1 : locs ≠ []) (h2 : locs.length ≤ 20) :
    ∃ out sys',
      bulk_images env initSys (.list (locs.map PyVal.str)) = (.mapResult out, sys') ∧
      (∀ q ∈ locs, ∀ e, fetchBody env q 5 = .error e → alookup q out = some []) ∧
      (∀ q ∈ locs, ∀ l, fetchBody env q 5 = .ok l → alookup q out = some l) ∧
      ∀ q ∈ locs, (alookup q out).isSome = true := by
  obtain ⟨sys', hrun⟩ := bulk_list_run env locs h1 h2
  refine ⟨_, sys', hrun, ?_, ?_, ?_⟩
  · intro q hq e he
    rw [buildOutput_lookup, if_pos hq, he]
    rfl
  · intro q hq l hl
    rw [buildOutput_lookup, if_pos hq, hl]
    rfl
  · intro q hq
    rw [buildOutput_lookup, if_pos hq]
    rfl

/-- C3 witness: in the batch ["a", "b"], the query "b" times out upstream
and degrades to the empty list while "a" resolves normally. -/
theorem c3_per_query_degrade_witness :
    ∃ out sys',
      bulk_images envMixed initSys (.list (["a", "b"].map PyVal.str))
        = (.mapResult out, sys') ∧
      (∀ q ∈ ["a", "b"], ∀ e, fetchBody envMixed q 5 = .error e → alookup q out = some []) ∧
      (∀ q ∈ ["a", "b"], ∀ l, fetchBody envMixed q 5 = .ok l → alookup q out = some l) ∧
      ∀ q ∈ ["a", "b"], (alookup q out).isSome = true :=
  c3_per_query_degrade envMixed ["a", "b"] (by decide) (by decide)

/-- C4: the endpoint raises a 400 `HTTPException` exactly for an empty list,
a list with a non-string element, a list longer than 20, an object with an
empty location, or a request of neither shape; and every rejection leaves
the process state untouched — no coroutine is created, no upstream call is
issued. -/
theorem c4_validation_iff (env : Upstream) (sys : Sys) (req : ReqVal) :
    ((∃ msg, (bulk_images env sys req).1 = .badRequest 400 msg) ↔
      (req = .list [] ∨
       (∃ items, req = .list items ∧ PyVal.nonStr ∈ items) ∨
       (∃ items, req = .list items ∧ 20 < items.length) ∨
       req = .locReq "" ∨
       req = .other)) ∧
    ((∃ msg, (bulk_images env sys req).1 = .badRequest 400 msg) →
      (bulk_images env sys req).2 = sys) := by
  cases req with
  | list items =>
    by_cases h1 : items = []
    · subst h1
      simp [bulk_images]
    · by_cases h2 : items.all PyVal.isStr = false
      · obtain ⟨x, hxmem, hx⟩ := List.all_eq_false.mp h2
        have hxn : x = PyVal.nonStr := by
          cases x with
          | str s => exact absurd rfl hx
          | nonStr => rfl
        constructor
        · constructor
          · intro _
            exact Or.inr (Or.inl ⟨items, rfl, hxn ▸ hxmem⟩)
          · intro _
            exact ⟨"When sending an array, all items must be strings.",
              by simp [bulk_images, if_neg h1, h2]⟩
        · intro _
          simp [bulk_images, if_neg h1, h2]
      · have hall : items.all PyVal.isStr = true := by
          cases hb : items.all PyVal.isStr
          · exact absurd hb h2
          · rfl
        by_cases h3 : 20 < items.length
        · constructor
          · constructor
            · intro _
              exact Or.inr (Or.inr (Or.inl ⟨items, rfl, h3⟩))
            · intro _
              exact ⟨"Maximum 20 locations allowed per request",
                by simp [bulk_images, if_neg h1, hall, h3]⟩
          · intro _
            simp [bulk_images, if_neg h1, hall, h3]
        · constructor
          · constructor
            · intro hex
              obtain ⟨msg, hmsg⟩ := hex
              simp [bulk_images, if_neg h1, hall, h3] at hmsg
            · rintro (h | ⟨items', hi, hmem⟩ | ⟨items', hi, hlen⟩ | h | h)
              · injection h with h'
                exact absurd h' h1
              · injection hi with hi'
                subst hi'
                have := List.all_eq_true.mp hall PyVal.nonStr hmem
                cases this
              · injection hi with hi'
                subst hi'
                exact absurd hlen h3
              · simp at h
              · simp at h
          · intro hex
            obtain ⟨msg, hmsg⟩ := hex
            simp [bulk_images, if_neg h1, hall, h3] at hmsg
  | locReq loc =>
    by_cases hl : loc = ""
    · subst hl
      simp [bulk_images]
    · cases hp : (fetch_images_call env sys loc 5).1 with
      | ok images =>
        constructor
        · constructor
          · intro hex
            obtain ⟨msg, hmsg⟩ := hex
            simp [bulk_images, hl, hp] at hmsg
          · rintro (h | ⟨items', hi, _⟩ | ⟨items', hi, _⟩ | h | h)
            · simp at h
            · simp at hi
            · simp at hi
            · injection h with h'
              exact absurd h' hl
            · simp at h
        · intro hex
          obtain ⟨msg, hmsg⟩ := hex
          simp [bulk_images, hl, hp] at hmsg
      | error e =>
        constructor
        · constructor
          · intro hex
            obtain ⟨msg, hmsg⟩ := hex
            simp [bulk_images, hl, hp] at hmsg
          · rintro (h | ⟨items', hi, _⟩ | ⟨items', hi, _⟩ | h | h)
            · simp at h
            · simp at hi
            · simp at hi
            · injection h with h'
              exact absurd h' hl
            · simp at h
        · intro hex
          obtain ⟨msg, hmsg⟩ := hex
          simp [bulk_images, hl, hp] at hmsg
  | other =>
    simp [bulk_images]

/-- C4 witness: the empty list is rejected with a 400 and the state — cache
and call log — is exactly the state before the request. -/
theorem c4_validation_iff_witness :
    (∃ msg, (bulk_images envTimeoutAll initSys (.list [])).1 = .badRequest 400 msg) ∧
    (bulk_images envTimeoutAll initSys (.list [])).2 = initSys :=
  ⟨(c4_validation_iff envTimeoutAll initSys (.list [])).1.mpr (Or.inl rfl),
   (c4_validation_iff envTimeoutAll initSys (.list [])).2
     ((c4_validation_iff envTimeoutAll initSys (.list [])).1.mpr (Or.inl rfl))⟩

/-- C8: for the single-object shape with a non-empty location, any process
state and any upstream behaviour, the endpoint answers with a 2xx
`singleResult`; when the resolution fails — for any reason — the images
list is empty, and when it succeeds the images list is the result. -/
theorem c8_single_degrades (env : Upstream) (sys : Sys) (loc : String) (h : loc ≠ "") :
    ∃ images err sys',
      bulk_images env sys (.locReq loc) = (.singleResult images err, sys') ∧
      (∀ e, (fetch_images_call env sys loc 5).1 = .error e → images = []) ∧
      (∀ l, (fetch_images_call env sys loc 5).1 = .ok l → images = l) := by
  cases hp : (fetch_images_call env sys loc 5).1 with
  | error e =>
    refine ⟨[], some (strOfErr e), (fetch_images_call env sys loc 5).2, ?_, ?_, ?_⟩
    · simp [bulk_images, h, hp]
    · intro e' _
      rfl
    · intro l hl
      cases hl
  | ok images =>
    refine ⟨images, none, (fetch_images_call env sys loc 5).2, ?_, ?_, ?_⟩
    · simp [bulk_images, h, hp]
    · intro e he
      cases he
    · intro l hl
      exact Except.ok.inj hl

/-- C8 witness: with an upstream that times out, the single-object request
still produces a `singleResult` with an empty images list. -/
theorem c8_single_degrades_witness :
    ∃ images err sys',
      bulk_images envTimeoutAll initSys (.locReq "Tokyo") = (.singleResult images err, sys') ∧
      (∀ e, (fetch_images_call envTimeoutAll initSys "Tokyo" 5).1 = .error e → images = []) ∧
      (∀ l, (fetch_images_call envTimeoutAll initSys "Tokyo" 5).1 = .ok l → images = l) :=
  c8_single_degrades envTimeoutAll initSys "Tokyo" (by decide)

/-- C10: when the single-object resolution fails, the body carries, next to
the empty images list, an error field holding the text of the caught
exception. -/
theorem c10_error_field (env : Upstream) (sys : Sys) (loc : String) (h : loc ≠ "")
    (e : FetchErr) (hf : (fetch_images_call env sys loc 5).1 = .error e) :
    (bulk_images env sys (.locReq loc)).1 = .singleResult [] (some (strOfErr e)) := by
  simp [bulk_images, h, hf]

/-- C10 witness: a timed-out resolution of "Osaka" yields a body whose error
field is the rendered 504 exception text. -/
theorem c10_error_field_witness :
    (bulk_images envTimeoutAll initSys (.locReq "Osaka")).1 =
      .singleResult [] (some (strOfErr (.httpExc 504 "Request timeout"))) :=
  c10_error_field envTimeoutAll initSys "Osaka" (by decide) (.httpExc 504 "Request timeout")
    (by decide)

/-- C1 evaluated at its failing input: the first resolution of ("Paris", 5)
succeeds and issues one upstream call; a second resolution of the same key
ten seconds later — well inside the TTL window — finds the already-awaited
coroutine cached under the key and raises `RuntimeError` instead of
returning the cached byte-identical result, while indeed issuing no second
upstream call. -/
theorem c1_second_call_raises :
    (fetch_images_call envTwoGood initSys "Paris" 5).1 = .ok ["a.jpg", "b.jpg"] ∧
    c1Sys1.calls = [("Paris", 5)] ∧
    (fetch_images_call envTwoGood c1Sys1Later "Paris" 5).1 = .error .reuseError ∧
    (fetch_images_call envTwoGood c1Sys1Later "Paris" 5).2.calls = [("Paris", 5)] :=
  ⟨by decide, by decide, by decide, by decide⟩

/-- C7 evaluated at its failing input: resolving ("Rome", 5) against an
upstream that times out fails, yet an entry — the exhausted coroutine,
stored by the wrapper before the await — remains in the cache under the key,
where none existed before the call. -/
theorem c7_failed_call_stores_entry :
    initSys.cache ("Rome", 5) = none ∧
    (fetch_images_call envTimeoutAll initSys "Rome" 5).1 =
      .error (.httpExc 504 "Request timeout") ∧
    ((fetch_images_call envTimeoutAll initSys "Rome" 5).2.cache ("Rome", 5)).isSome = true :=
  ⟨rfl, by decide, by decide⟩

theorem countP_set_eq {α : Type} (p : α → Bool) :
    ∀ (l : List α) (i : Nat) (a b : α), l.get? i = some a →
      (l.set i b).countP p + (if p a then 1 else 0) =
        l.countP p + (if p b then 1 else 0) := by
  intro l
  induction l with
  | nil => intro i a b h; cases h
  | cons x xs ih =>
    intro i a b h
    cases i with
    | zero =>
      rw [List.get?_cons_zero] at h
      injection h with h'
      subst h'
      simp only [List.set_cons_zero, List.countP_cons]
      omega
    | succ n =>
      rw [List.get?_cons_succ] at h
      simp only [List.set_cons_succ, List.countP_cons]
      have := ih n a b h
      omega

theorem holdersCount_replicate (n : Nat) :
    holdersCount (List.replicate n { pc := .ready, holding := false }) = 0 := by
  induction n with
  | zero => rfl
  | succ m ih =>
    simp only [holdersCount, List.replicate_succ, List.countP_cons] at ih ⊢
    simp [ih]

theorem gateInv_step {s s' : GateSys} (hstep : GateStep s s') (hinv : gateInv s) :
    gateInv s' := by
  obtain ⟨hcount, hiff⟩ := hinv
  cases hstep with
  | start i t hi hpc =>
    have htmem : t ∈ s.tasks := List.get?_mem hi
    have hth : t.holding = false := by
      cases hh : t.holding
      · rfl
      · have := (hiff t htmem).mp hh
        rw [hpc] at this
        cases this
    have hkey := countP_set_eq (fun tk => tk.holding) s.tasks i t
      { pc := .waitingGate, holding := t.holding } hi
    simp only [hth, Bool.false_eq_true, if_false] at hkey
    constructor
    · simp only [holdersCount] at hcount ⊢
      rw [hth]
      omega
    · intro t' ht'
      rcases List.mem_or_eq_of_mem_set ht' with hmem | rfl
      · exact hiff t' hmem
      · constructor
        · intro hh
          rw [hth] at hh
          cases hh
        · intro hp
          cases hp
  | acquire i t hi hpc hsem =>
    have htmem : t ∈ s.tasks := List.get?_mem hi
    have hth : t.holding = false := by
      cases hh : t.holding
      · rfl
      · have := (hiff t htmem).mp hh
        rw [hpc] at this
        cases this
    have hkey := countP_set_eq (fun tk => tk.holding) s.tasks i t
      { pc := .fetching, holding := true } hi
    simp only [hth, Bool.false_eq_true, if_false, if_pos] at hkey
    constructor
    · simp only [holdersCount] at hcount ⊢
      omega
    · intro t' ht'
      rcases List.mem_or_eq_of_mem_set ht' with hmem | rfl
      · exact hiff t' hmem
      · exact ⟨fun _ => rfl, fun _ => rfl⟩
  | fetchOk i t hi hpc =>
    have htmem : t ∈ s.tasks := List.get?_mem hi
    have hth : t.holding = true := (hiff t htmem).mpr hpc
    have hkey := countP_set_eq (fun tk => tk.holding) s.tasks i t
      { pc := .parsing, holding := false } hi
    simp only [hth, Bool.false_eq_true, if_false, if_pos] at hkey
    constructor
    · simp only [holdersCount] at hcount ⊢
      omega
    · intro t' ht'
      rcases List.mem_or_eq_of_mem_set ht' with hmem | rfl
      · exact hiff t' hmem
      · constructor
        · intro hh
          cases hh
        · intro hp
          cases hp
  | fetchFail i t hi hpc =>
    have htmem : t ∈ s.tasks := List.get?_mem hi
    have hth : t.holding = true := (hiff t htmem).mpr hpc
    have hkey := countP_set_eq (fun tk => tk.holding) s.tasks i t
      { pc := .done, holding := false } hi
    simp only [hth, Bool.false_eq_true, if_false, if_pos] at hkey
    constructor
    · simp only [holdersCount] at hcount ⊢
      omega
    · intro t' ht'
      rcases List.mem_or_eq_of_mem_set ht' with hmem | rfl
      · exact hiff t' hmem
      · constructor
        · intro hh
          cases hh
        · intro hp
          cases hp
  | parseDone i t hi hpc =>
    have htmem : t ∈ s.tasks := List.get?_mem hi
    have hth : t.holding = false := by
      cases hh : t.holding
      · rfl
      · have := (hiff t htmem).mp hh
        rw [hpc] at this
        cases this
    have hkey := countP_set_eq (fun tk => tk.holding) s.tasks i t
      { pc := .done, holding := t.holding } hi
    simp only [hth, Bool.false_eq_true, if_false] at hkey
    constructor
    · simp only [holdersCount] at hcount ⊢
      rw [hth]
      omega
    · intro t' ht'
      rcases List.mem_or_eq_of_mem_set ht' with hmem | rfl
      · exact hiff t' hmem
      · constructor
        · intro hh
          rw [hth] at hh
          cases hh
        · intro hp
          cases hp

theorem gateInv_reach (n : Nat) (s : GateSys) (h : GateReach n s) : gateInv s := by
  induction h with
  | refl =>
    constructor
    · simp [initGate, holdersCount_replicate]
    · intro t ht
      have ht' := List.eq_of_mem_replicate (by simpa [initGate] using ht)
      subst ht'
      exact ⟨(fun hh => Bool.noConfusion hh), (fun hp => TaskPc.noConfusion hp)⟩
  | tail hsteps hstep ih => exact gateInv_step hstep ih

/-- C9: in every schedule of any number of concurrent resolutions, a task
holds a semaphore slot only while its upstream fetch is in flight — never
while parsing the payload, and not before the fetch begins (all cache work
happens before the coroutine first runs) — and at most 50 slots are held
simultaneously; the step relation releases the slot exactly when the raw
payload has been obtained, before parsing starts. -/
theorem c9_gate_safety (n : Nat) (s : GateSys) (h : GateReach n s) :
    holdersCount s.tasks ≤ SEM_LIMIT ∧
    (∀ t ∈ s.tasks, t.holding = true → t.pc = .fetching) ∧
    (∀ t ∈ s.tasks, t.pc = .parsing → t.holding = false) := by
  obtain ⟨hcount, hiff⟩ := gateInv_reach n s h
  refine ⟨by omega, ?_, ?_⟩
  · intro t ht hh
    exact (hiff t ht).mp hh
  · intro t ht hp
    cases hh : t.holding
    · rfl
    · have := (hiff t ht).mp hh
      rw [hp] at this
      cases this

/-- C9 witness at the start state of three concurrent resolutions. -/
theorem c9_gate_safety_witness :
    holdersCount (initGate 3).tasks ≤ SEM_LIMIT ∧
    (∀ t ∈ (initGate 3).tasks, t.holding = true → t.pc = .fetching) ∧
    (∀ t ∈ (initGate 3).tasks, t.pc = .parsing → t.holding = false) :=
  c9_gate_safety 3 (initGate 3) Relation.ReflTransGen.refl

end Scrape
